import Mathlib

set_option maxHeartbeats 1600000
set_option maxRecDepth 4000

/-!
Shallow embedding of the Magnus orchestration core (conversation history with
streaming-token transactions, response protocol parser, parameter coercion,
tool dispatch, and the recursive tool-calling loop), translated from
`src/index.tsx`, `src/llm/history.llm.ts` (the version that defines
`addMessageWithSummarization`, which `index.tsx` calls), `src/llm/client.llm.ts`
(the cancellable version), `src/tools/tool.registry.ts` and
`src/utils/context.util.ts`.

JavaScript runtime values that flow through the untyped parts of the code
(parsed JSON, raw tool parameters) are modelled by `JsValue`.  JavaScript
builtins (`JSON.parse`, `JSON.stringify`, `Number`, `String`,
`String.prototype.trim/includes`, the three section regexes) are modelled by
executable Lean functions that are faithful on the value domain the program
exercises; deviations are noted at each definition.  Asynchronous effects
(the nested summarization model call, tool `execute` bodies) are oracle
parameters, and `Promise.all` joins are modelled as a left-to-right fold.
-/

/-- Exact decimal number `mant * 10 ^ exp10`, the model of the JS number
values this program produces from decimal literals.  The program never
compares numbers, it only converts and serializes them, so an exact decimal
representation is used instead of IEEE doubles; construction strips trailing
zeros of a fractional mantissa so the stringification matches the builtin on
the decimal values exercised here. -/
structure JsNum where
  mant : Int
  exp10 : Int
deriving Repr, DecidableEq

/-- Model of a JavaScript runtime value as produced by `JSON.parse` and
consumed by parameter coercion and tool dispatch.  `nan` is the value
`NaN` produced by a failed `Number` coercion; object fields keep JS
property order (first occurrence position, last write wins). -/
inductive JsValue where
  | null
  | nan
  | bool (b : Bool)
  | num (n : JsNum)
  | str (s : String)
  | arr (elems : List JsValue)
  | obj (fields : List (String × JsValue))

/-- Insert-or-overwrite on an association list, modelling JS object property
assignment: an existing key keeps its position and gets the new value, a new
key is appended. -/
def insertA {α : Type} (m : List (String × α)) (k : String) (v : α) : List (String × α) :=
  if m.any (fun p => p.1 == k) then
    m.map (fun p => if p.1 == k then (k, v) else p)
  else
    m ++ [(k, v)]

/-- Lookup of a property on an association list (JS property read). -/
def lookupA {α : Type} (m : List (String × α)) (k : String) : Option α :=
  (m.find? (fun p => p.1 == k)).map (fun p => p.2)

/-- Model of the JS `in` operator on a parsed JSON value: only objects can
carry the properties the parser tests for (`name`, `parameters`); arrays and
primitives never do. -/
def JsValue.hasField : JsValue → String → Bool
  | .obj fs, k => fs.any (fun p => p.1 == k)
  | _, _ => false

/-- Property read on a parsed JSON value, `none` when absent. -/
def JsValue.getField : JsValue → String → Option JsValue
  | .obj fs, k => lookupA fs k
  | _, _ => none

/-- The four JSON whitespace characters accepted by `JSON.parse`. -/
def isJsonWs (c : Char) : Bool :=
  c == ' ' || c == '\t' || c == '\n' || c == '\r'

/-- ASCII fragment of the JS whitespace class `\s` (and of
`String.prototype.trim`): space, tab, newline, carriage return, vertical tab
and form feed.  Unicode whitespace is not modelled. -/
def isJsWs (c : Char) : Bool :=
  c == ' ' || c == '\t' || c == '\n' || c == '\r' || c == '\x0b' || c == '\x0c'

/-- The character with code 123 (left curly bracket). -/
def lbrace : Char := Char.ofNat 123

/-- The character with code 125 (right curly bracket). -/
def rbrace : Char := Char.ofNat 125

/-- Model of `String.prototype.trim` (ASCII whitespace fragment). -/
def jsTrim (s : String) : String :=
  String.mk ((s.data.dropWhile isJsWs).reverse.dropWhile isJsWs |>.reverse)

/-- Span of decimal digits at the head of a character list. -/
def spanDigits (s : List Char) : List Char × List Char :=
  (s.takeWhile Char.isDigit, s.dropWhile Char.isDigit)

/-- Numeric value of a list of decimal digits. -/
def digitsToNat (ds : List Char) : Nat :=
  ds.foldl (fun a c => a * 10 + (c.toNat - 48)) 0

/-- Strip factors of ten from the mantissa while the exponent is negative,
canonicalizing e.g. mantissa 150, exponent -2 to mantissa 15, exponent -1. -/
def stripTenFactors : Nat → Int → Int → JsNum
  | 0, m, e => ⟨m, e⟩
  | f + 1, m, e =>
    if e < 0 && m % 10 == 0 && m != 0 then stripTenFactors f (m / 10) (e + 1)
    else ⟨m, e⟩

/-- Canonicalize a decimal number: zero mantissa forces exponent zero,
otherwise trailing zeros of a fractional mantissa are stripped. -/
def normJsNum (n : JsNum) : JsNum :=
  if n.mant == 0 then ⟨0, 0⟩
  else stripTenFactors n.mant.natAbs n.mant n.exp10

/-- Build the decimal value of a JSON number literal from sign, integral
digits, fractional digits and signed exponent. -/
def mkJsonNum (neg : Bool) (intDs fracDs : List Char) (expNeg : Bool) (expDs : List Char) : JsNum :=
  let mant0 : Nat := digitsToNat (intDs ++ fracDs)
  let eraw : Int := if expNeg then -(digitsToNat expDs : Int) else (digitsToNat expDs : Int)
  normJsNum ⟨if neg then -(mant0 : Int) else (mant0 : Int), eraw - (fracDs.length : Int)⟩

/-- Parse the body of a JSON number (after any leading whitespace), returning
the value and the remaining input.  Follows the JSON grammar: optional minus,
`0` or a nonzero-led digit run, optional fraction, optional exponent. -/
def parseJsonNumber (s : List Char) : Option (JsNum × List Char) :=
  let (neg, s1) := match s with
    | '-' :: r => (true, r)
    | _ => (false, s)
  let intPart : Option (List Char × List Char) := match s1 with
    | '0' :: r => some (['0'], r)
    | c :: _ => if c.isDigit then some (spanDigits s1) else none
    | [] => none
  match intPart with
  | none => none
  | some (intDs, s2) =>
    let (fracDs, s3) : List Char × List Char := match s2 with
      | '.' :: r => spanDigits r
      | _ => ([], s2)
    let fracOk : Bool := match s2 with
      | '.' :: _ => !fracDs.isEmpty
      | _ => true
    if fracOk then
      match s3 with
      | 'e' :: r | 'E' :: r =>
        let (expNeg, r1) := match r with
          | '+' :: r2 => (false, r2)
          | '-' :: r2 => (true, r2)
          | _ => (false, r)
        let (expDs, s4) := spanDigits r1
        if expDs.isEmpty then none
        else some (mkJsonNum neg intDs fracDs expNeg expDs, s4)
      | _ => some (mkJsonNum neg intDs fracDs false [], s3)
    else none

/-- Parse the character content of a JSON string literal after the opening
quote, handling the JSON escapes.  A `\u` escape takes four hex digits
(surrogate pairing is not modelled); an unescaped control character is
rejected as in `JSON.parse`. -/
def parseJsonStringChars : List Char → Option (List Char × List Char)
  | [] => none
  | '"' :: rest => some ([], rest)
  | '\\' :: 'u' :: h1 :: h2 :: h3 :: h4 :: rest =>
    let isHex := fun (c : Char) => c.isDigit || ('a' ≤ c && c ≤ 'f') || ('A' ≤ c && c ≤ 'F')
    if isHex h1 && isHex h2 && isHex h3 && isHex h4 then
      let hv := fun (c : Char) =>
        if c.isDigit then c.toNat - 48
        else if 'a' ≤ c && c ≤ 'f' then c.toNat - 87
        else c.toNat - 55
      let code := ((hv h1 * 16 + hv h2) * 16 + hv h3) * 16 + hv h4
      match parseJsonStringChars rest with
      | some (cs, r) => some (Char.ofNat code :: cs, r)
      | none => none
    else none
  | '\\' :: e :: rest =>
    let ec : Option Char :=
      if e == '"' then some '"'
      else if e == '\\' then some '\\'
      else if e == '/' then some '/'
      else if e == 'b' then some '\x08'
      else if e == 'f' then some '\x0c'
      else if e == 'n' then some '\n'
      else if e == 'r' then some '\r'
      else if e == 't' then some '\t'
      else none
    match ec with
    | some c =>
      match parseJsonStringChars rest with
      | some (cs, r) => some (c :: cs, r)
      | none => none
    | none => none
  | c :: rest =>
    if c.toNat < 32 then none
    else
      match parseJsonStringChars rest with
      | some (cs, r) => some (c :: cs, r)
      | none => none

mutual

/-- Fuel-bounded recursive-descent parser for one JSON value, the model of
`JSON.parse`.  Returns the value and the unconsumed input. -/
def parseJsonValue : Nat → List Char → Option (JsValue × List Char)
  | 0, _ => none
  | fuel + 1, s =>
    match s.dropWhile isJsonWs with
    | [] => none
    | c :: rest =>
      if c == lbrace then
        match (rest.dropWhile isJsonWs) with
        | c2 :: r2 =>
          if c2 == rbrace then some (.obj [], r2)
          else parseJsonMembers fuel (c2 :: r2) []
        | [] => none
      else if c == '[' then
        match rest.dropWhile isJsonWs with
        | ']' :: r2 => some (.arr [], r2)
        | r2 => parseJsonElements fuel r2 []
      else if c == '"' then
        match parseJsonStringChars rest with
        | some (cs, r) => some (.str (String.mk cs), r)
        | none => none
      else if c == 't' then
        match rest with
        | 'r' :: 'u' :: 'e' :: r => some (.bool true, r)
        | _ => none
      else if c == 'f' then
        match rest with
        | 'a' :: 'l' :: 's' :: 'e' :: r => some (.bool false, r)
        | _ => none
      else if c == 'n' then
        match rest with
        | 'u' :: 'l' :: 'l' :: r => some (.null, r)
        | _ => none
      else
        match parseJsonNumber (c :: rest) with
        | some (q, r) => some (.num q, r)
        | none => none

/-- Parse the members of a JSON object (cursor on the first key), collapsing
duplicate keys by last-write-wins as `JSON.parse` does. -/
def parseJsonMembers : Nat → List Char → List (String × JsValue) → Option (JsValue × List Char)
  | 0, _, _ => none
  | fuel + 1, s, acc =>
    match s.dropWhile isJsonWs with
    | '"' :: r =>
      match parseJsonStringChars r with
      | some (kcs, r1) =>
        match r1.dropWhile isJsonWs with
        | ':' :: r2 =>
          match parseJsonValue fuel r2 with
          | some (v, r3) =>
            let acc1 := insertA acc (String.mk kcs) v
            match r3.dropWhile isJsonWs with
            | ',' :: r4 => parseJsonMembers fuel r4 acc1
            | c :: r4 => if c == rbrace then some (.obj acc1, r4) else none
            | [] => none
          | none => none
        | _ => none
      | none => none
    | _ => none

/-- Parse the elements of a JSON array (cursor on the first element). -/
def parseJsonElements : Nat → List Char → List JsValue → Option (JsValue × List Char)
  | 0, _, _ => none
  | fuel + 1, s, acc =>
    match parseJsonValue fuel s with
    | some (v, r) =>
      match r.dropWhile isJsonWs with
      | ',' :: r1 => parseJsonElements fuel r1 (acc ++ [v])
      | ']' :: r1 => some (.arr (acc ++ [v]), r1)
      | _ => none
    | none => none

end

/-- Model of `JSON.parse`: parse one value and require only whitespace after
it; `none` is the thrown `SyntaxError`. -/
def jsonParse (s : String) : Option JsValue :=
  match parseJsonValue (2 * s.data.length + 8) s.data with
  | some (v, rest) => if (rest.dropWhile isJsonWs).isEmpty then some v else none
  | none => none

/-- Model of the `Number(string)` builtin on its decimal fragment: the input
is whitespace-trimmed, an empty remainder is `0`, and otherwise an optional
sign followed by decimal digits with optional fraction and exponent must
consume the whole input.  Hex/octal/binary literals and `Infinity` are not
modelled; `none` is `NaN`. -/
def jsNumberOfString (s : String) : Option JsNum :=
  let t := (s.data.dropWhile isJsWs).reverse.dropWhile isJsWs |>.reverse
  if t.isEmpty then some ⟨0, 0⟩
  else
    let (neg, s1) : Bool × List Char := match t with
      | '-' :: r => (true, r)
      | '+' :: r => (false, r)
      | _ => (false, t)
    let (intDs, s2) := spanDigits s1
    let (fracDs, s3) : List Char × List Char := match s2 with
      | '.' :: r => spanDigits r
      | _ => ([], s2)
    if intDs.isEmpty && fracDs.isEmpty then none
    else
      match s3 with
      | 'e' :: r | 'E' :: r =>
        let (expNeg, r1) : Bool × List Char := match r with
          | '+' :: r2 => (false, r2)
          | '-' :: r2 => (true, r2)
          | _ => (false, r)
        let (expDs, s4) := spanDigits r1
        if expDs.isEmpty || !s4.isEmpty then none
        else some (mkJsonNum neg intDs fracDs expNeg expDs)
      | [] => some (mkJsonNum neg intDs fracDs false [])
      | _ => none

/-- Decimal rendering of a `JsNum`, the model of number-to-string conversion
(exponent notation for very large or very small magnitudes is not
modelled). -/
def JsNum.render (n : JsNum) : String :=
  if n.exp10 ≥ 0 then toString (n.mant * 10 ^ n.exp10.toNat)
  else
    let k := (-n.exp10).toNat
    let ds := toString n.mant.natAbs
    let ds := if ds.length ≤ k then String.mk (List.replicate (k + 1 - ds.length) '0') ++ ds else ds
    let point := ds.length - k
    (if n.mant < 0 then "-" else "") ++ (ds.take point) ++ "." ++ (ds.drop point)

mutual

/-- Model of the `String(value)` builtin: arrays stringify as their elements
joined by commas (with `null` elements rendering empty), plain objects render
as `[object Object]`. -/
def jsToString : JsValue → String
  | .null => "null"
  | .nan => "NaN"
  | .bool b => if b then "true" else "false"
  | .num n => n.render
  | .str s => s
  | .arr xs => jsArrJoin xs
  | .obj _ => "[object Object]"
termination_by structural v => v

/-- Comma-join of array elements for `Array.prototype.toString`; a `null`
element contributes the empty string. -/
def jsArrJoin : List JsValue → String
  | [] => ""
  | [.null] => ""
  | [x] => jsToString x
  | .null :: xs => "," ++ jsArrJoin xs
  | x :: xs => jsToString x ++ "," ++ jsArrJoin xs
termination_by structural l => l

end

/-- Model of the `Number(value)` builtin on the values that can reach the
coercion stage: strings go through the decimal parse, booleans and `null`
have their fixed numeric values, arrays coerce through their joined string
as `ToPrimitive` prescribes, and plain objects give `NaN`. -/
def jsToNumber : JsValue → JsValue
  | .num n => .num n
  | .nan => .nan
  | .null => .num ⟨0, 0⟩
  | .bool b => .num ⟨if b then 1 else 0, 0⟩
  | .str s =>
    (match jsNumberOfString s with
     | some n => .num n
     | none => .nan)
  | .arr xs =>
    (match jsNumberOfString (jsArrJoin xs) with
     | some n => .num n
     | none => .nan)
  | .obj _ => .nan

/-- Quote and escape a string for JSON output. -/
def jsonQuote (s : String) : String :=
  let esc := fun (c : Char) =>
    if c == '"' then "\\\""
    else if c == '\\' then "\\\\"
    else if c == '\n' then "\\n"
    else if c == '\t' then "\\t"
    else if c == '\r' then "\\r"
    else String.mk [c]
  "\"" ++ String.join (s.data.map esc) ++ "\""

mutual

/-- Model of `JSON.stringify` (compact form; the 2-space indentation the
source passes only affects layout, not information content).  `NaN`
serializes as `null` as in the builtin. -/
def jsonStringify : JsValue → String
  | .null => "null"
  | .nan => "null"
  | .bool b => if b then "true" else "false"
  | .num n => n.render
  | .str s => jsonQuote s
  | .arr xs => "[" ++ jsonStringifyElems xs ++ "]"
  | .obj fs => "\x7b" ++ jsonStringifyFields fs ++ "\x7d"
termination_by structural v => v

/-- Serialize array elements, comma separated. -/
def jsonStringifyElems : List JsValue → String
  | [] => ""
  | [x] => jsonStringify x
  | x :: xs => jsonStringify x ++ "," ++ jsonStringifyElems xs
termination_by structural l => l

/-- Serialize object fields, comma separated. -/
def jsonStringifyFields : List (String × JsValue) → String
  | [] => ""
  | [p] => jsonQuote p.1 ++ ":" ++ jsonStringify p.2
  | p :: ps => jsonQuote p.1 ++ ":" ++ jsonStringify p.2 ++ "," ++ jsonStringifyFields ps
termination_by structural l => l

end

/-- Containment of `needle` in `hay`, the model of
`String.prototype.includes`. -/
def subOccurs (needle : List Char) : List Char → Bool
  | [] => needle.isEmpty
  | c :: t => needle.isPrefixOf (c :: t) || subOccurs needle t

/-- String-level wrapper for substring containment. -/
def strIncludes (hay needle : String) : Bool :=
  subOccurs needle.data hay.data

/-- Model of the Zod field schemas the tools declare, as discriminated by the
source through `_def.typeName`.  `zOther` stands for any further schema kind
(enums, literals, unions, ...), which the coercion passes through. -/
inductive ZodType where
  | zString
  | zNumber
  | zBoolean
  | zArray (inner : ZodType)
  | zOptional (inner : ZodType)
  | zDefault (inner : ZodType)
  | zOther
deriving Repr, DecidableEq

/-- Model of a tool parameter schema: the `z.object` case carries its shape,
anything else makes `convertParametersToTypes` pass every value through
(the `instanceof z.ZodObject` test). -/
inductive ZodSchema where
  | zObject (shape : List (String × ZodType))
  | zOtherSchema
deriving Repr, DecidableEq

/-- The source's `while` loop unwrapping `ZodDefault` wrappers. -/
def unwrapDefaults : ZodType → ZodType
  | .zDefault t => unwrapDefaults t
  | t => t

/-- The unwrapping performed before the type dispatch: all `ZodDefault`
layers, then a single `ZodOptional` layer (exactly as in the source — an
optional nested below the stripped layers is not unwrapped again). -/
def actualType (t : ZodType) : ZodType :=
  match unwrapDefaults t with
  | .zOptional i => i
  | a => a

/-- Model of `String.prototype.toLowerCase` on its ASCII fragment. -/
def jsToLower (s : String) : String :=
  String.mk (s.data.map Char.toLower)

/-- The source's `convertBoolean` helper: stringify, lowercase,
compare against `true` and `1`. -/
def convertBoolean (v : JsValue) : Bool :=
  let lowerValue := jsToLower (jsToString v)
  lowerValue == "true" || lowerValue == "1"

/-- Conversion of one raw parameter value against the schema, the body of the
`for` loop of `convertParametersToTypes`. -/
def convertParamValue (schema : ZodSchema) (key : String) (value : JsValue) : JsValue :=
  match schema with
  | .zOtherSchema => value
  | .zObject shape =>
    match lookupA shape key with
    | none => value
    | some fieldSchema =>
      match actualType fieldSchema with
      | .zNumber =>
        match value with
        | .arr xs => .arr (xs.map jsToNumber)
        | v => jsToNumber v
      | .zBoolean =>
        match value with
        | .arr xs => .arr (xs.map (fun v => .bool (convertBoolean v)))
        | v => .bool (convertBoolean v)
      | .zArray _ =>
        match value with
        | .str s =>
          (match jsonParse s with
           | some (.arr xs) => .arr xs
           | some _ => .arr [value]
           | none => .arr [value])
        | .arr xs => .arr xs
        | v => .arr [v]
      | _ => value

/-- Model of `Object.entries`: object fields in property order, array and
string indices as decimal keys, nothing for other primitives; `null` throws
a `TypeError` as in JS. -/
def jsEntries : JsValue → Except String (List (String × JsValue))
  | .obj fs => .ok fs
  | .null => .error ("Cannot convert undefined or null to object")
  | .arr xs => .ok (xs.enum.map (fun p => (toString p.1, p.2)))
  | .str s => .ok (s.data.enum.map (fun p => (toString p.1, .str (String.mk [p.2]))))
  | _ => .ok []

/-- Model of `convertParametersToTypes` from `src/index.tsx`: walk the raw
parameter entries, coercing each value by its declared field type and
building the result object by property assignment. -/
def convertParametersToTypes (parameters : JsValue) (schema : ZodSchema) :
    Except String (List (String × JsValue)) := do
  let entries ← jsEntries parameters
  return entries.foldl (fun acc kv => insertA acc kv.1 (convertParamValue schema kv.1 kv.2)) []

/-- Model of a registered capability: name, description, declared parameter
schema, and the effectful `execute` as an oracle from typed parameters to a
serialized-ready result or a thrown error message. -/
structure ToolDefinition where
  name : String
  description : String
  parameters : ZodSchema
  execute : JsValue → Except String JsValue

/-- The capability registry, a `Map` from tool name to tool in registration
order. -/
structure ToolRegistry where
  tools : List (String × ToolDefinition)

/-- Model of `ToolRegistry.registerTool` (`Map.set`). -/
def ToolRegistry.registerTool (r : ToolRegistry) (t : ToolDefinition) : ToolRegistry :=
  ⟨insertA r.tools t.name t⟩

/-- Construct a registry by registering a list of tools in order, as the
`ToolRegistry` constructor does. -/
def mkToolRegistry (ts : List ToolDefinition) : ToolRegistry :=
  ts.foldl ToolRegistry.registerTool ⟨[]⟩

/-- Model of `ToolRegistry.getTool` (`Map.get`): the parsed call name can be
any runtime value, and only a string can match a registered key. -/
def ToolRegistry.getTool (r : ToolRegistry) (name : JsValue) : Option ToolDefinition :=
  match name with
  | .str s => lookupA r.tools s
  | _ => none

/-- Model of `ToolRegistry.getAllTools` (`Map.values` in insertion order). -/
def ToolRegistry.getAllTools (r : ToolRegistry) : List ToolDefinition :=
  r.tools.map (fun p => p.2)

/-- A parsed tool call request: the extracted `name` and `parameters`
properties, still untyped runtime values. -/
structure ToolCall where
  name : JsValue
  parameters : JsValue

/-- Outcome record of `executeTool`: `error` is the optional `error` field of
the returned object. -/
structure ToolExecutionResult where
  success : Bool
  result : String
  error : Option String

/-- Model of `Array.prototype.join` with separator `, `. -/
def joinComma : List String → String
  | [] => ""
  | [x] => x
  | x :: xs => x ++ ", " ++ joinComma xs

/-- The structured failure message of `executeTool` for an unknown
capability, naming every registered tool. -/
def toolNotFoundError (reg : ToolRegistry) (name : JsValue) : String :=
  "Tool \x27" ++ jsToString name ++ "\x27 not found. Available tools: "
    ++ joinComma ((reg.getAllTools).map (fun t => t.name))

/-- Model of `executeTool` from `src/index.tsx`: resolve the capability,
returning a structured failure naming every registered tool when absent;
otherwise coerce the parameters, run `execute`, and capture either the
serialized result or the failure message. -/
def executeTool (reg : ToolRegistry) (toolCall : ToolCall) : ToolExecutionResult :=
  match reg.getTool toolCall.name with
  | none => ⟨false, "", some (toolNotFoundError reg toolCall.name)⟩
  | some tool =>
    match (do
        let typedParameters ← convertParametersToTypes toolCall.parameters tool.parameters
        tool.execute (.obj typedParameters)) with
    | .ok result => ⟨true, jsonStringify result, none⟩
    | .error e => ⟨false, "", some e⟩

/-- The error string recorded for a failed call:
`result.error || \x27Unknown error\x27`, where JS `||` also replaces an empty
message. -/
def fallbackError (r : ToolExecutionResult) : String :=
  match r.error with
  | some e => if e == "" then "Unknown error" else e
  | none => "Unknown error"

/-- Aggregate of `executeToolsParallel`. -/
structure ParallelExecutionResult where
  success : Bool
  results : List (String × String)
  errors : List (String × String)

/-- Model of `executeToolsParallel` from `src/index.tsx`: every call is
executed and its outcome recorded under its (stringified) tool name in the
`results` or `errors` object; the `Promise.all` join never short-circuits, so
the fold visits every call.  Completion order, which in JS only decides which
same-named write survives, is modelled as left-to-right list order.  An
absent or empty failure message falls back to `Unknown error` through
`result.error || ...`.  The body of each mapped promise is `parStep`. -/
def parStep (reg : ToolRegistry) (acc : List (String × String) × List (String × String))
    (toolCall : ToolCall) : List (String × String) × List (String × String) :=
  let r := executeTool reg toolCall
  if r.success then
    (insertA acc.1 (jsToString toolCall.name) r.result, acc.2)
  else
    (acc.1, insertA acc.2 (jsToString toolCall.name) (fallbackError r))

/-- The join and aggregation of `executeToolsParallel`. -/
def executeToolsParallel (reg : ToolRegistry) (toolCalls : List ToolCall) :
    ParallelExecutionResult :=
  let acc := toolCalls.foldl (parStep reg) ([], [])
  ⟨acc.2.length == 0, acc.1, acc.2⟩

/-- Message roles of the conversation log. -/
inductive Role where
  | system
  | user
  | assistant
deriving Repr, DecidableEq

/-- The wire name of a role (`msg.role` as a string). -/
def Role.toStr : Role → String
  | .system => "system"
  | .user => "user"
  | .assistant => "assistant"

/-- The uppercased role name used when serializing messages for
summarization (`msg.role.toUpperCase()`). -/
def Role.toUpper : Role → String
  | .system => "SYSTEM"
  | .user => "USER"
  | .assistant => "ASSISTANT"

/-- A conversation message. -/
structure Message where
  role : Role
  content : String
deriving Repr, DecidableEq

/-- State of `ConversationHistory` from `src/llm/history.llm.ts` (the version
defining `addMessageWithSummarization`, which `src/index.tsx` calls): the
ordered message log plus the ephemeral streaming-token transaction. -/
structure ConversationHistory where
  messages : List Message
  pendingTokenBuffer : String
  isAppending : Bool
deriving Repr, DecidableEq

/-- The constructor: an optional system prompt seeds the log. -/
def ConversationHistory.mk0 (systemPrompt : Option String) : ConversationHistory :=
  ⟨match systemPrompt with
    | some s => [⟨.system, s⟩]
    | none => [], "", false⟩

/-- Model of `addMessage` (the source restricts the role to user or
assistant in its type). -/
def ConversationHistory.addMessage (h : ConversationHistory) (role : Role) (content : String) :
    ConversationHistory :=
  { h with messages := h.messages ++ [⟨role, content⟩] }

/-- Model of `addSystemMessage`: insert at the head when no system message
leads the log, otherwise replace the head's content. -/
def ConversationHistory.addSystemMessage (h : ConversationHistory) (content : String) :
    ConversationHistory :=
  match h.messages with
  | [] => { h with messages := [⟨.system, content⟩] }
  | m :: rest =>
    if m.role = .system then { h with messages := ⟨.system, content⟩ :: rest }
    else { h with messages := ⟨.system, content⟩ :: m :: rest }

/-- Model of `getHistory` (defensive copy of the log). -/
def ConversationHistory.getHistory (h : ConversationHistory) : List Message :=
  h.messages

/-- Model of `clear`: keep exactly the system messages
(`messages.filter(msg => msg.role === 'system')`). -/
def ConversationHistory.clear (h : ConversationHistory) : ConversationHistory :=
  { h with messages := h.messages.filter (fun m => m.role = .system) }

/-- Model of `getLastMessage` (`messages[messages.length - 1]`,
`undefined` on an empty log). -/
def ConversationHistory.getLastMessage (h : ConversationHistory) : Option Message :=
  h.messages.getLast?

/-- Model of `startAppendToken`: unconditionally activate the transaction and
reset the buffer.  The source method cannot throw; it is wrapped in `Except`
like its guarded siblings so that claims about failure are statable. -/
def ConversationHistory.startAppendToken (h : ConversationHistory) :
    Except String ConversationHistory :=
  .ok { h with isAppending := true, pendingTokenBuffer := "" }

/-- Model of `appendToken`: fails unless a transaction is active, otherwise
extends the pending buffer. -/
def ConversationHistory.appendToken (h : ConversationHistory) (token : String) :
    Except String ConversationHistory :=
  if h.isAppending then
    .ok { h with pendingTokenBuffer := h.pendingTokenBuffer ++ token }
  else
    .error ("Cannot append token - must call startAppendToken() first")

/-- Model of `commitAppendToken`: fails unless a transaction is active; a
non-empty buffer extends a trailing assistant message or becomes a new one;
the transaction state is then reset. -/
def ConversationHistory.commitAppendToken (h : ConversationHistory) :
    Except String ConversationHistory :=
  if h.isAppending then
    let msgs :=
      if h.pendingTokenBuffer.length > 0 then
        match h.getLastMessage with
        | some lastMessage =>
          if lastMessage.role = .assistant then
            h.messages.dropLast ++ [⟨.assistant, lastMessage.content ++ h.pendingTokenBuffer⟩]
          else
            h.messages ++ [⟨.assistant, h.pendingTokenBuffer⟩]
        | none => h.messages ++ [⟨.assistant, h.pendingTokenBuffer⟩]
      else h.messages
    .ok { messages := msgs, pendingTokenBuffer := "", isAppending := false }
  else
    .error ("Cannot commit - must call startAppendToken() first")

/-- Model of `cancelAppendToken`: drop the buffer and deactivate without
touching the log. -/
def ConversationHistory.cancelAppendToken (h : ConversationHistory) : ConversationHistory :=
  { h with isAppending := false, pendingTokenBuffer := "" }

/-- Model of `calculateTokenCount` from `src/utils/context.util.ts`:
`Math.ceil(text.length / 4)`.  JS measures UTF-16 code units; codepoint
length coincides on the ASCII text exercised here. -/
def calculateTokenCount (text : String) : Nat :=
  (text.length + 3) / 4

/-- Model of `getCurrentContextLength`: per-message token estimate plus a
fixed overhead of 4. -/
def getCurrentContextLength (messages : List Message) : Nat :=
  messages.foldl
    (fun total msg => total + calculateTokenCount msg.role.toStr + calculateTokenCount msg.content + 4)
    0

/-- Model of `summarizeHistoryIfNeeded`.  The nested `summarizeTool.execute`
model call is an oracle `summarize`: `Except.ok` is a `success: true` result
carrying the summary, `Except.error` covers both a `success: false` result
and a thrown error, either of which leaves the history untouched.  Above the
64k-character (60000-token) threshold the non-system messages are split at
the 75% mark, the older slice is serialized role-prefixed and compressed
into one synthetic user message. -/
def ConversationHistory.summarizeHistoryIfNeeded
    (summarize : String → Except String String) (h : ConversationHistory) :
    ConversationHistory :=
  if getCurrentContextLength h.messages > 60000 then
    let systemMessage := h.messages.find? (fun m => m.role = .system)
    let nonSystemMessages := h.messages.filter (fun m => ¬ m.role = .system)
    let cut := nonSystemMessages.length * 3 / 4
    let messagesToKeep := nonSystemMessages.drop cut
    let messagesToSummarize := nonSystemMessages.take cut
    let textToSummarize :=
      String.intercalate ("\n\n")
        (messagesToSummarize.map (fun m => m.role.toUpper ++ ": " ++ m.content))
    match summarize textToSummarize with
    | .ok summary =>
      let head := match systemMessage with
        | some sm => [sm]
        | none => []
      { h with messages := head
          ++ [⟨.user, "[SUMMARIZED CONTEXT - " ++ toString messagesToSummarize.length
                ++ " messages compressed]:\n\n" ++ summary⟩]
          ++ messagesToKeep }
    | .error _ => h
  else h

/-- Model of `addMessageWithSummarization`: append, then maybe compress. -/
def ConversationHistory.addMessageWithSummarization
    (summarize : String → Except String String) (h : ConversationHistory)
    (role : Role) (content : String) : ConversationHistory :=
  (h.addMessage role content).summarizeHistoryIfNeeded summarize

/-- First index at which `needle` occurs in `hay`, if any. -/
def findSubPos (needle : List Char) : List Char → Option Nat
  | [] => if needle.isEmpty then some 0 else none
  | c :: t =>
    if needle.isPrefixOf (c :: t) then some 0
    else (findSubPos needle t).map (fun i => i + 1)

/-- Index of the last newline inside the maximal whitespace run at the head
of the input (the backtracking point of a greedy `\s*` followed by a
mandatory newline). -/
def lastNewlineInWsRun (s : List Char) : Option Nat :=
  let run := s.takeWhile isJsWs
  match run.reverse.findIdx? (fun c => c == '\n') with
  | some i => some (run.length - 1 - i)
  | none => none

/-- Lazy capture of body text up to the first position where one of the
lookahead stop strings begins, or to the end of input. -/
def captureUntil (stops : List (List Char)) : List Char → List Char
  | [] => []
  | c :: t =>
    if stops.any (fun st => st.isPrefixOf (c :: t)) then []
    else c :: captureUntil stops t

/-- Model of one section regex
`HEADER\s*\n([\s\S]*?)(?=STOP1|STOP2|$)` applied with `String.match`: find
the leftmost occurrence of the header that is followed by a whitespace run
containing a newline (re-scanning forward when the run has none, as the
regex engine advances its start position), then capture lazily up to the
first stop or the end. -/
def matchSectionAux (header : List Char) (stops : List (List Char)) :
    Nat → List Char → Option (List Char)
  | 0, _ => none
  | fuel + 1, s =>
    match findSubPos header s with
    | none => none
    | some i =>
      let after := (s.drop i).drop header.length
      match lastNewlineInWsRun after with
      | some k => some (captureUntil stops (after.drop (k + 1)))
      | none => matchSectionAux header stops fuel (s.drop (i + 1))

/-- String-level wrapper for a section regex match; the result is the first
capture group. -/
def matchSection (header : String) (stops : List String) (content : String) : Option String :=
  (matchSectionAux header.data (stops.map String.data) (content.data.length + 1) content.data).map
    String.mk

/-- The parsed shape of one assistant response; `action` is the source's
`ToolCall | ToolCall[]` union. -/
inductive ActionField where
  | single (toolCall : ToolCall)
  | multiple (toolCalls : List ToolCall)

/-- Model of the `ParsedResponse` record; each field is present exactly when
the source sets the corresponding key. -/
structure ParsedResponse where
  thinking : Option String
  action : Option ActionField
  response : Option String

/-- Whether a parsed JSON value passes the source's tool-object test:
`typeof === 'object'`, non-null, and owning `name` and `parameters`
properties (arrays pass the `typeof` test but never own these keys). -/
def isToolObj (v : JsValue) : Bool :=
  v.hasField ("name") && v.hasField ("parameters")

/-- Extraction of one `ToolCallRequest` from a tool object. -/
def toToolCall? (v : JsValue) : Option ToolCall :=
  match v.getField ("name"), v.getField ("parameters") with
  | some n, some p => some ⟨n, p⟩
  | _, _ => none

/-- Model of the action-section JSON interpretation in `parseToolCall`
(`src/index.tsx` lines 124-160): an array collects its well-formed elements
in order, exposing a scalar for exactly one and an array for several; a
single well-formed object is a scalar; anything else sets no action. -/
def extractActions : JsValue → Option ActionField
  | .arr elems =>
    let toolCalls := elems.filterMap toToolCall?
    match toolCalls with
    | [] => none
    | [tc] => some (.single tc)
    | tcs => some (.multiple tcs)
  | v =>
    match toToolCall? v with
    | some tc => some (.single tc)
    | none => none

/-- Model of `parseToolCall` from `src/index.tsx`: three independent section
regexes split the text; the action section is trimmed and `JSON.parse`d, a
parse failure being caught and leaving the action unset; the result is
`null` when no key was set. -/
def parseToolCall (content : String) : Option ParsedResponse :=
  let thinkingMatch :=
    matchSection ("### THINKING") [("\n### ACTION"), ("\n### RESPONSE")] content
  let actionMatch := matchSection ("### ACTION") [("\n### RESPONSE")] content
  let responseMatch := matchSection ("### RESPONSE") [] content
  let action : Option ActionField :=
    match actionMatch with
    | some actionContent =>
      (match jsonParse (jsTrim actionContent) with
       | some v => extractActions v
       | none => none)
    | none => none
  let result : ParsedResponse := ⟨thinkingMatch, action, responseMatch⟩
  if thinkingMatch.isSome || action.isSome || responseMatch.isSome then some result
  else none

/-- Cancellation observations of one loop iteration, the values the
`isCancelledRef` flag is seen to have at the three places
`handleRecursiveToolCalling` consults it: at the top of the `while` body,
during streaming (where the transport throws and the `catch` branch
returns), and after dispatch before the next iteration. -/
structure CancelFlags where
  beforeIter : Bool
  midStream : Bool
  afterDispatch : Bool

/-- The state one loop iteration reads and writes: the shared
`ConversationHistory` and the local `currentMessages` array. -/
structure LoopState where
  hist : ConversationHistory
  currentMessages : List Message

/-- Whether an iteration returned from the loop (with the returned string)
or fell through to the next iteration. -/
inductive IterOutcome where
  | finished (result : String)
  | continued

/-- Result of one loop iteration, with the tool calls passed to
`executeTool`/`executeToolsParallel` recorded for observation. -/
structure IterationResult where
  outcome : IterOutcome
  state : LoopState
  dispatched : List ToolCall

/-- The streaming phase of one iteration: each delivered content fragment is
accumulated into `assistantResponse` and appended to the live
streaming transaction.  The SSE line decoding that produces the fragments is
transport-level and not modelled; fragments enter here as the decoded
`delta.content` strings. -/
def streamTokens (h : ConversationHistory) (assistantResponse : String) :
    List String → Except String (ConversationHistory × String)
  | [] => .ok (h, assistantResponse)
  | f :: fs => do
    let h1 ← h.appendToken f
    streamTokens h1 (assistantResponse ++ f) fs

/-- The user-role feedback message for one successful single dispatch. -/
def toolResultMessageSingle (result : String) : String :=
  "Tool execution result:\n```json\n" ++ result ++ "\n```"

/-- The user-role feedback message for one failed single dispatch,
including the conditional timed-out hint and the original call. -/
def toolFailureMessageSingle (tc : ToolCall) (err : Option String) : String :=
  let e := match err with
    | some e => e
    | none => "undefined"
  let timedOutLine := match err with
    | some e =>
      if strIncludes e ("timed out") then
        "6. The operation timed out - try breaking it into smaller, simpler steps or reducing the scope of changes"
      else ""
    | none => ""
  "Tool \x27" ++ jsToString tc.name ++ "\x27 failed with error: " ++ e
    ++ "\n\nPlease analyze this error and try again with the SAME tool using corrected parameters. Focus on:\n1. Fixing the specific error mentioned above\n2. Ensuring all required parameters are provided and correctly formatted\n3. Verifying file paths exist and are accessible (use absolute paths)\n4. Using appropriate parameter types (strings, numbers, booleans)\n5. Double-checking parameter names and values match the tool\x27s schema\n"
    ++ timedOutLine
    ++ "\n\nTry the \x27" ++ jsToString tc.name
    ++ "\x27 tool again with corrected parameters. Only use a different tool if the current tool is fundamentally unsuitable for this task.\n\nOriginal failed tool call: "
    ++ jsToString tc.name ++ " with parameters: " ++ jsonStringify tc.parameters

/-- The aggregated feedback message after a fully successful parallel
dispatch. -/
def parallelSuccessMessage (results : List (String × String)) : String :=
  "Parallel tool execution completed successfully:\n\n"
    ++ String.join (results.map (fun p => "**" ++ p.1 ++ "**:\n```json\n" ++ p.2 ++ "\n```\n\n"))

/-- The aggregated feedback message after a parallel dispatch with
failures, listing successes then failures with one corrective
instruction. -/
def parallelErrorMessage (results errors : List (String × String)) : String :=
  "Parallel tool execution completed with errors:\n\n"
    ++ String.join
      (results.map (fun p => "**" ++ p.1 ++ "** (success):\n```json\n" ++ p.2 ++ "\n```\n\n"))
    ++ String.join (errors.map (fun p => "**" ++ p.1 ++ "** (failed): " ++ p.2 ++ "\n\n"))
    ++ "Please analyze these errors and try again with corrected parameters. Focus on fixing the specific errors mentioned above."

/-- The tail of one loop iteration after the streamed response has been
committed (`src/index.tsx` lines 409-545): record the assistant turn in
`currentMessages`, parse it, and either dispatch the action (single or
parallel), append the feedback message and continue — observing the
post-dispatch cancellation check — or finish with the response text as the
terminal answer. -/
def dispatchPhase (reg : ToolRegistry) (summarize : String → Except String String)
    (st : LoopState) (h3 : ConversationHistory) (assistantResponse : String)
    (cancelledAfterDispatch : Bool) : Except String IterationResult :=
  let msgs :=
    if assistantResponse.isEmpty then st.currentMessages
    else st.currentMessages ++ [⟨.assistant, assistantResponse⟩]
  let afterDispatch := fun (state : LoopState) (dispatched : List ToolCall) =>
    if cancelledAfterDispatch then
      Except.ok (IterationResult.mk (.finished ("Request cancelled by user.")) state dispatched)
    else
      Except.ok (IterationResult.mk .continued state dispatched)
  match (parseToolCall assistantResponse).bind (fun pr => pr.action) with
  | some (.multiple toolCalls) =>
    let parallelExecution := executeToolsParallel reg toolCalls
    let msgText :=
      if parallelExecution.success then parallelSuccessMessage parallelExecution.results
      else parallelErrorMessage parallelExecution.results parallelExecution.errors
    let h4 := h3.addMessageWithSummarization summarize .user msgText
    afterDispatch ⟨h4, msgs ++ [⟨.user, msgText⟩]⟩ toolCalls
  | some (.single tc) =>
    let toolExecution := executeTool reg tc
    let msgText :=
      if toolExecution.success then toolResultMessageSingle toolExecution.result
      else toolFailureMessageSingle tc toolExecution.error
    let h4 := h3.addMessageWithSummarization summarize .user msgText
    afterDispatch ⟨h4, msgs ++ [⟨.user, msgText⟩]⟩ [tc]
  | none =>
    .ok ⟨.finished assistantResponse, ⟨h3, msgs⟩, []⟩

/-- One iteration of the `while` body of `handleRecursiveToolCalling` from
`src/index.tsx`.  `reg` is the tool registry singleton, `summarize` the
summarization oracle threaded to `addMessageWithSummarization`, `flags` the
observed cancellation values and `fragments` the streamed content of this
iteration's model call.  UI-state mirroring (`conversationUIState`,
`setToolResults`, logging) is presentation and not modelled. -/
def runIteration (reg : ToolRegistry) (summarize : String → Except String String)
    (flags : CancelFlags) (fragments : List String) (st : LoopState) :
    Except String IterationResult :=
  if flags.beforeIter then
    .ok ⟨.finished ("Request cancelled by user."), st, []⟩
  else do
    let h1 ← st.hist.startAppendToken
    let s ← streamTokens h1 ("") fragments
    if flags.midStream then
      .ok ⟨.finished ("Request cancelled by user."), ⟨s.1, st.currentMessages⟩, []⟩
    else do
      let h3 ← s.1.commitAppendToken
      dispatchPhase reg summarize st h3 s.2 flags.afterDispatch

/-- Fuel recursion over the remaining iterations of
`handleRecursiveToolCalling`; the script lists each iteration's observed
cancellation flags and streamed fragments, and exhausted fuel is the
`while` guard failing. -/
def handleRecursiveToolCallingAux (reg : ToolRegistry)
    (summarize : String → Except String String) :
    Nat → List (CancelFlags × List String) → LoopState → List ToolCall →
    Except String (String × LoopState × List ToolCall)
  | 0, _, st, acc =>
    .ok ("Maximum iteration limit reached. Please try a more specific query.", st, acc)
  | fuel + 1, script, st, acc => do
    let e := match script with
      | e :: _ => e
      | [] => (⟨false, false, false⟩, [])
    let r ← runIteration reg summarize e.1 e.2 st
    match r.outcome with
    | .finished result => .ok (result, r.state, acc ++ r.dispatched)
    | .continued =>
      handleRecursiveToolCallingAux reg summarize fuel script.tail r.state (acc ++ r.dispatched)

/-- Model of `handleRecursiveToolCalling` from `src/index.tsx`, returning
the loop's result string together with the final state and every tool call
dispatched during the turn.  A script entry past its end stands for a model
call streaming no content, which parses to no structured content and
terminates the loop. -/
def handleRecursiveToolCalling (reg : ToolRegistry)
    (summarize : String → Except String String)
    (script : List (CancelFlags × List String)) (maxIterations : Nat) (st : LoopState) :
    Except String (String × LoopState × List ToolCall) :=
  handleRecursiveToolCallingAux reg summarize maxIterations script st []

/-- Fold of `appendToken` over a fragment list, the elementary
start/append*/commit test sequence on the streaming transaction. -/
def appendTokens (h : ConversationHistory) : List String → Except String ConversationHistory
  | [] => .ok h
  | f :: fs => do
    let h1 ← h.appendToken f
    appendTokens h1 fs

/-- The list of tool calls an `action` field carries (one for the scalar
encoding, all of them for the array encoding). -/
def actionCalls : ActionField → List ToolCall
  | .single tc => [tc]
  | .multiple tcs => tcs

/-- Closed form of the `results` object of a parallel dispatch over
distinctly named calls: one entry per succeeding call, in order. -/
def toolResultsOf (reg : ToolRegistry) (toolCalls : List ToolCall) : List (String × String) :=
  toolCalls.filterMap (fun tc =>
    let r := executeTool reg tc
    if r.success then some (jsToString tc.name, r.result) else none)

/-- Closed form of the `errors` object of a parallel dispatch over distinctly
named calls: one entry per failing call, in order. -/
def toolErrorsOf (reg : ToolRegistry) (toolCalls : List ToolCall) : List (String × String) :=
  toolCalls.filterMap (fun tc =>
    let r := executeTool reg tc
    if r.success then none else some (jsToString tc.name, fallbackError r))

/-- A history with an active streaming transaction holding a buffered
fragment, the input refuting the claim that a second `startAppendToken`
fails. -/
def activeTxnHistory : ConversationHistory := ⟨[], "buffered", true⟩

/-- Representative tool shape for the coercion claims: one field of each
coerced type plus a plain string field. -/
def sampleShape : List (String × ZodType) :=
  [("flag", .zBoolean), ("count", .zNumber), ("items", .zArray .zString), ("note", .zString)]

/-- The representative schema wrapped as a `z.object`. -/
def sampleSchema : ZodSchema := .zObject sampleShape

/-- A capability that echoes its typed parameters, for concrete dispatch
scenarios. -/
def echoTool : ToolDefinition := ⟨"echo", "echoes its parameters", .zObject [], fun p => .ok p⟩

/-- A capability that always succeeds with a fixed payload. -/
def alphaTool : ToolDefinition :=
  ⟨"alpha", "returns a fixed payload", .zObject [], fun _ => .ok (.str ("A"))⟩

/-- A capability that always succeeds with a fixed payload. -/
def gammaTool : ToolDefinition :=
  ⟨"gamma", "returns a fixed payload", .zObject [], fun _ => .ok (.str ("G"))⟩

/-- A capability whose execution always throws. -/
def boomTool : ToolDefinition :=
  ⟨"boom", "always throws", .zObject [], fun _ => .error ("boom failed")⟩

/-- Registry with one echoing tool. -/
def echoRegistry : ToolRegistry := mkToolRegistry [echoTool]

/-- Registry with two succeeding tools and one throwing tool. -/
def mixedRegistry : ToolRegistry := mkToolRegistry [alphaTool, boomTool, gammaTool]

/-- The summarization oracle that always fails (no nested model call can
succeed in a closed scenario); a failing summarization leaves history
untouched. -/
def noSummarizer : String → Except String String := fun _ => .error ("unavailable")

/-- A concrete assistant response containing both an action section and a
final-answer section. -/
def bothSectionsResponse : String :=
  "### ACTION\n\x7b\"name\": \"echo\", \"parameters\": \x7b\"x\": \"1\"\x7d\x7d\n### RESPONSE\nDone."

/-- The tool call parsed from `bothSectionsResponse`. -/
def echoCall : ToolCall := ⟨.str ("echo"), .obj [("x", .str ("1"))]⟩

/-- An empty loop state over a fresh history. -/
def emptyLoopState : LoopState := ⟨⟨[], "", false⟩, []⟩

/-- A well-formed tool object for the multiplicity claims. -/
def objA : JsValue := .obj [("name", .str ("alpha")), ("parameters", .obj [])]

/-- A second well-formed tool object. -/
def objB : JsValue := .obj [("name", .str ("beta")), ("parameters", .obj [("k", .str ("v"))])]

/-- The tool call extracted from `objA`. -/
def tcA : ToolCall := ⟨.str ("alpha"), .obj []⟩

theorem strFoldlAppend (fs : List String) :
    ∀ a : String, fs.foldl (fun r s => r ++ s) a = a ++ String.join fs := by
  induction fs with
  | nil =>
    intro a
    simp [String.join, String.append_empty]
  | cons f fs ih =>
    intro a
    have hj : String.join (f :: fs) = ("" ++ f) ++ String.join fs := by
      show List.foldl (fun r s => r ++ s) "" (f :: fs) = _
      rw [List.foldl_cons, ih ("" ++ f)]
    rw [List.foldl_cons, ih (a ++ f), hj]
    rw [String.empty_append]
    rw [String.append_assoc]

theorem strJoinCons (f : String) (fs : List String) :
    String.join (f :: fs) = f ++ String.join fs := by
  show List.foldl (fun r s => r ++ s) "" (f :: fs) = _
  rw [List.foldl_cons, strFoldlAppend fs ("" ++ f), String.empty_append]

theorem strLenPos (s : String) (h : s ≠ "") : 0 < s.length := by
  cases s with
  | mk data =>
    cases data with
    | nil => exact absurd rfl h
    | cons c cs => simp [String.length]

theorem appendTokens_active (fs : List String) :
    ∀ (msgs : List Message) (b : String),
      appendTokens ⟨msgs, b, true⟩ fs = .ok ⟨msgs, b ++ String.join fs, true⟩ := by
  induction fs with
  | nil =>
    intro msgs b
    simp [appendTokens, String.join, String.append_empty]
  | cons f fs ih =>
    intro msgs b
    show (do
        let h1 ← ConversationHistory.appendToken ⟨msgs, b, true⟩ f
        appendTokens h1 fs) = _
    rw [show ConversationHistory.appendToken ⟨msgs, b, true⟩ f
        = Except.ok ⟨msgs, b ++ f, true⟩ from rfl]
    show appendTokens ⟨msgs, b ++ f, true⟩ fs = _
    rw [ih, strJoinCons, String.append_assoc]

theorem streamTokens_active (fs : List String) :
    ∀ (msgs : List Message) (b a : String),
      streamTokens ⟨msgs, b, true⟩ a fs
        = .ok (⟨msgs, b ++ String.join fs, true⟩, a ++ String.join fs) := by
  induction fs with
  | nil =>
    intro msgs b a
    simp [streamTokens, String.join, String.append_empty]
  | cons f fs ih =>
    intro msgs b a
    show (do
        let h1 ← ConversationHistory.appendToken ⟨msgs, b, true⟩ f
        streamTokens h1 (a ++ f) fs) = _
    rw [show ConversationHistory.appendToken ⟨msgs, b, true⟩ f
        = Except.ok ⟨msgs, b ++ f, true⟩ from rfl]
    show streamTokens ⟨msgs, b ++ f, true⟩ (a ++ f) fs = _
    rw [ih, strJoinCons, String.append_assoc, String.append_assoc]

/-- C1: a `startAppendToken`; `appendToken f1 .. fn`; `commitAppendToken`
sequence succeeds from any state and appends exactly the concatenation of
the fragments: a non-empty concatenation extends a trailing assistant
message or creates a new assistant message, an empty concatenation leaves
the log unchanged, and the transaction is cleared afterwards. -/
theorem commit_appends_concatenated_fragments (h : ConversationHistory) (fs : List String) :
    (do
      let h1 ← h.startAppendToken
      let h2 ← appendTokens h1 fs
      h2.commitAppendToken)
    = .ok ⟨(if String.join fs = "" then h.messages
        else match h.messages.getLast? with
          | some m =>
            if m.role = .assistant then
              h.messages.dropLast ++ [⟨.assistant, m.content ++ String.join fs⟩]
            else h.messages ++ [⟨.assistant, String.join fs⟩]
          | none => h.messages ++ [⟨.assistant, String.join fs⟩]), "", false⟩ := by
  show (do
      let h2 ← appendTokens ⟨h.messages, "", true⟩ fs
      h2.commitAppendToken) = _
  rw [appendTokens_active, String.empty_append]
  show ConversationHistory.commitAppendToken ⟨h.messages, String.join fs, true⟩ = _
  by_cases hj : String.join fs = ""
  · simp [ConversationHistory.commitAppendToken, hj]
  · simp only [ConversationHistory.commitAppendToken, ConversationHistory.getLastMessage,
      if_pos (strLenPos _ hj), if_true, hj, if_false]

/-- C2 counterexample: on a history with an active streaming transaction,
`startAppendToken` succeeds (resetting the buffer) instead of raising an
error, refuting the claim that it fails while a transaction is active. -/
theorem startAppendToken_active_succeeds_cex :
    activeTxnHistory.isAppending = true ∧
    activeTxnHistory.startAppendToken = .ok ⟨[], "", true⟩ := ⟨rfl, rfl⟩

/-- C2 amended: `startAppendToken` always succeeds, activating the
transaction and resetting the buffer even when one is already active; the
guarded operations are `appendToken` and `commitAppendToken`, which fail
when no transaction is active. -/
theorem startAppendToken_unconditional (h : ConversationHistory) (t : String) :
    h.startAppendToken = .ok { h with isAppending := true, pendingTokenBuffer := "" } ∧
    (h.isAppending = false →
      h.appendToken t = .error ("Cannot append token - must call startAppendToken() first") ∧
      h.commitAppendToken = .error ("Cannot commit - must call startAppendToken() first")) := by
  refine ⟨rfl, fun hf => ⟨?_, ?_⟩⟩ <;>
    simp [ConversationHistory.appendToken, ConversationHistory.commitAppendToken, hf]

theorem startAppendToken_unconditional_witness :
    ConversationHistory.startAppendToken ⟨[], "", false⟩ = .ok ⟨[], "", true⟩ ∧
    (ConversationHistory.appendToken ⟨[], "", false⟩ ("x")
        = .error ("Cannot append token - must call startAppendToken() first") ∧
      ConversationHistory.commitAppendToken ⟨[], "", false⟩
        = .error ("Cannot commit - must call startAppendToken() first")) := by
  have h := startAppendToken_unconditional ⟨[], "", false⟩ ("x")
  exact ⟨h.1, h.2 rfl⟩

/-- C3: `clear` preserves the system message: the cleared log contains
exactly the system messages of the original log, and a history led by its
system message with no further system messages reduces to exactly that
system message. -/
theorem clear_preserves_system_message (h : ConversationHistory) (sys : Message)
    (rest : List Message) :
    (∀ m ∈ (h.clear).messages, m.role = .system) ∧
    (∀ m ∈ h.messages, m.role = .system → m ∈ (h.clear).messages) ∧
    (h.messages = sys :: rest → sys.role = .system → (∀ m ∈ rest, m.role ≠ .system) →
      (h.clear).messages = [sys]) := by
  refine ⟨?_, ?_, ?_⟩
  · intro m hm
    simp [ConversationHistory.clear, List.mem_filter] at hm
    exact hm.2
  · intro m hm hs
    simp [ConversationHistory.clear, List.mem_filter]
    exact ⟨hm, hs⟩
  · intro hmsg hs hr
    simp [ConversationHistory.clear, hmsg, List.filter_cons, hs]
    exact hr

theorem clear_preserves_system_message_witness :
    (ConversationHistory.clear
        ⟨[⟨.system, "sp"⟩, ⟨.user, "u"⟩, ⟨.assistant, "a"⟩], "", false⟩).messages
      = [⟨.system, "sp"⟩] := by
  exact (clear_preserves_system_message
    ⟨[⟨.system, "sp"⟩, ⟨.user, "u"⟩, ⟨.assistant, "a"⟩], "", false⟩
    ⟨.system, "sp"⟩ [⟨.user, "u"⟩, ⟨.assistant, "a"⟩]).2.2 rfl rfl (by decide)

theorem runIteration_mid_stream (reg : ToolRegistry) (summarize : String → Except String String)
    (fragments : List String) (st : LoopState) :
    runIteration reg summarize ⟨false, true, false⟩ fragments st
      = .ok ⟨.finished ("Request cancelled by user."),
             ⟨⟨st.hist.messages, "" ++ String.join fragments, true⟩, st.currentMessages⟩, []⟩ := by
  show (do
      let h1 ← st.hist.startAppendToken
      let s ← streamTokens h1 ("") fragments
      Except.ok (IterationResult.mk (.finished ("Request cancelled by user."))
        ⟨s.1, st.currentMessages⟩ [])) = _
  rw [show st.hist.startAppendToken = Except.ok ⟨st.hist.messages, "", true⟩ from rfl]
  show (do
      let s ← streamTokens ⟨st.hist.messages, "", true⟩ ("") fragments
      Except.ok (IterationResult.mk (.finished ("Request cancelled by user."))
        ⟨s.1, st.currentMessages⟩ [])) = _
  rw [streamTokens_active]
  rfl

/-- C4: when cancellation is observed mid-stream, the loop returns the
cancellation result immediately (whatever iterations the script still
holds), dispatches no tool in that iteration, and the partial streamed
content stays in the uncommitted transaction: the message log is exactly
the one from before the iteration. -/
theorem cancellation_mid_stream_discards (reg : ToolRegistry)
    (summarize : String → Except String String) (fragments : List String)
    (rest : List (CancelFlags × List String)) (n : Nat) (st : LoopState) :
    ∃ st', handleRecursiveToolCalling reg summarize ((⟨false, true, false⟩, fragments) :: rest)
        (n + 1) st = .ok ("Request cancelled by user.", st', []) ∧
      st'.hist.messages = st.hist.messages := by
  refine ⟨⟨⟨st.hist.messages, "" ++ String.join fragments, true⟩, st.currentMessages⟩, ?_, rfl⟩
  show handleRecursiveToolCallingAux reg summarize (n + 1)
      ((⟨false, true, false⟩, fragments) :: rest) st [] = _
  simp only [handleRecursiveToolCallingAux]
  rw [runIteration_mid_stream]
  rfl

theorem filterMap_all_some {α β : Type} (f : α → Option β) :
    ∀ (l : List α), (∀ a ∈ l, (f a).isSome) →
      List.Forall₂ (fun a b => f a = some b) l (l.filterMap f) := by
  intro l
  induction l with
  | nil => intro _; simp [List.filterMap]
  | cons a t ih =>
    intro hall
    have ha : (f a).isSome := hall a (by simp)
    obtain ⟨b, hb⟩ := Option.isSome_iff_exists.mp ha
    rw [List.filterMap_cons, hb]
    exact List.Forall₂.cons hb (ih (fun x hx => hall x (by simp [hx])))

theorem toToolCall_fields (v : JsValue) (tc : ToolCall) (h : toToolCall? v = some tc) :
    v.getField ("name") = some tc.name ∧ v.getField ("parameters") = some tc.parameters := by
  unfold toToolCall? at h
  rcases hn : v.getField ("name") with _ | n <;> rw [hn] at h
  · simp at h
  · rcases hp : v.getField ("parameters") with _ | p <;> rw [hp] at h
    · simp at h
    · cases h
      exact ⟨rfl, rfl⟩

/-- C5: a single well-formed tool object (or a singleton array holding one)
exposes a scalar action carrying exactly the object's `name` and
`parameters`; an array of N well-formed tool objects, N at least 2, exposes
an array action of exactly N requests in source order, each matching its
source object. -/
theorem parse_action_multiplicity (elems : List JsValue) :
    (∀ (v : JsValue) (tc : ToolCall), toToolCall? v = some tc →
        extractActions v = some (.single tc) ∧
        v.getField ("name") = some tc.name ∧ v.getField ("parameters") = some tc.parameters) ∧
    (∀ (e : JsValue) (tc : ToolCall), elems = [e] → toToolCall? e = some tc →
        extractActions (.arr elems) = some (.single tc)) ∧
    ((∀ e ∈ elems, (toToolCall? e).isSome) → 2 ≤ elems.length →
      ∃ tcs, extractActions (.arr elems) = some (.multiple tcs) ∧
        tcs.length = elems.length ∧
        List.Forall₂ (fun e tc => toToolCall? e = some tc) elems tcs) := by
  refine ⟨?_, ?_, ?_⟩
  · intro v tc h
    refine ⟨?_, toToolCall_fields v tc h⟩
    cases v with
    | arr es => simp [toToolCall?, JsValue.getField] at h
    | obj fs => simp [extractActions, h]
    | null => simp [toToolCall?, JsValue.getField] at h
    | nan => simp [toToolCall?, JsValue.getField] at h
    | bool b => simp [toToolCall?, JsValue.getField] at h
    | num n => simp [toToolCall?, JsValue.getField] at h
    | str s => simp [toToolCall?, JsValue.getField] at h
  · intro e tc he h
    subst he
    simp [extractActions, List.filterMap_cons, h]
  · intro hall hlen
    have hf2 := filterMap_all_some toToolCall? elems hall
    have hleneq : (elems.filterMap toToolCall?).length = elems.length :=
      (List.Forall₂.length_eq hf2).symm
    refine ⟨elems.filterMap toToolCall?, ?_, hleneq, hf2⟩
    rcases hfm : elems.filterMap toToolCall? with _ | ⟨a, _ | ⟨b, r⟩⟩
    · rw [hfm] at hleneq; simp at hleneq; omega
    · rw [hfm] at hleneq; simp at hleneq; omega
    · simp [extractActions, hfm]

theorem parse_action_multiplicity_witness :
    extractActions objA = some (.single tcA) ∧
    (∃ tcs, extractActions (.arr [objA, objB]) = some (.multiple tcs) ∧
      tcs.length = ([objA, objB] : List JsValue).length ∧
      List.Forall₂ (fun e tc => toToolCall? e = some tc) [objA, objB] tcs) := by
  exact ⟨((parse_action_multiplicity []).1 objA tcA rfl).1,
    (parse_action_multiplicity [objA, objB]).2.2 (by decide) (by decide)⟩

/-- C6: parameter coercion follows the declared field type: boolean fields
by case-insensitive match against true/1 (so TRUE and 1 map to true, false
and 0 to false), number fields by numeric parse vectorized over arrays,
array fields by parsing a raw string as a serialized array literal or else
wrapping it into a one-element array while arrays pass through, and string,
unschemad or schemaless values pass through unchanged. -/
theorem convert_parameters_per_type :
    (convertParamValue sampleSchema ("flag") (.str ("TRUE")) = .bool true) ∧
    (convertParamValue sampleSchema ("flag") (.str ("1")) = .bool true) ∧
    (convertParamValue sampleSchema ("flag") (.str ("false")) = .bool false) ∧
    (convertParamValue sampleSchema ("flag") (.str ("0")) = .bool false) ∧
    (convertParamValue sampleSchema ("count") (.arr [.str ("1"), .str ("2"), .str ("3")])
        = .arr [.num ⟨1, 0⟩, .num ⟨2, 0⟩, .num ⟨3, 0⟩]) ∧
    (convertParamValue sampleSchema ("items") (.str ("[\"a\",\"b\"]"))
        = .arr [.str ("a"), .str ("b")]) ∧
    (convertParamValue sampleSchema ("items") (.str ("a")) = .arr [.str ("a")]) ∧
    (∀ (shape : List (String × ZodType)) (k : String) (f : ZodType) (s : String),
      lookupA shape k = some f → actualType f = .zBoolean →
        convertParamValue (.zObject shape) k (.str s)
          = .bool (jsToLower s == "true" || jsToLower s == "1")) ∧
    (∀ (shape : List (String × ZodType)) (k : String) (f : ZodType) (xs : List JsValue),
      lookupA shape k = some f → actualType f = .zNumber →
        convertParamValue (.zObject shape) k (.arr xs) = .arr (xs.map jsToNumber)) ∧
    (∀ (shape : List (String × ZodType)) (k : String) (f : ZodType) (inner : ZodType)
        (s : String),
      lookupA shape k = some f → actualType f = .zArray inner →
        convertParamValue (.zObject shape) k (.str s)
          = match jsonParse s with
            | some (.arr xs) => .arr xs
            | some _ => .arr [.str s]
            | none => .arr [.str s]) ∧
    (∀ (shape : List (String × ZodType)) (k : String) (f : ZodType) (inner : ZodType)
        (xs : List JsValue),
      lookupA shape k = some f → actualType f = .zArray inner →
        convertParamValue (.zObject shape) k (.arr xs) = .arr xs) ∧
    (∀ (shape : List (String × ZodType)) (k : String) (f : ZodType) (v : JsValue),
      lookupA shape k = some f → actualType f = .zString →
        convertParamValue (.zObject shape) k v = v) ∧
    (∀ (shape : List (String × ZodType)) (k : String) (v : JsValue),
      lookupA shape k = none → convertParamValue (.zObject shape) k v = v) ∧
    (∀ (k : String) (v : JsValue), convertParamValue .zOtherSchema k v = v) := by
  refine ⟨rfl, rfl, rfl, rfl, rfl, rfl, rfl, ?_, ?_, ?_, ?_, ?_, ?_, ?_⟩
  · intro shape k f s hlk hat
    simp only [convertParamValue, hlk, hat, convertBoolean, jsToString]
  · intro shape k f xs hlk hat
    simp only [convertParamValue, hlk, hat]
  · intro shape k f inner s hlk hat
    simp only [convertParamValue, hlk, hat]
  · intro shape k f inner xs hlk hat
    simp only [convertParamValue, hlk, hat]
  · intro shape k f v hlk hat
    simp only [convertParamValue, hlk, hat]
  · intro shape k v hlk
    simp only [convertParamValue, hlk]
  · intro k v
    simp only [convertParamValue]

theorem convert_parameters_per_type_witness :
    convertParamValue (.zObject [("deep", .zDefault (.zOptional .zBoolean))]) ("deep")
        (.str ("TRUE")) = .bool true := by
  have h := (convert_parameters_per_type).2.2.2.2.2.2.2.1
    [("deep", .zDefault (.zOptional .zBoolean))] ("deep")
    (.zDefault (.zOptional .zBoolean)) ("TRUE") rfl rfl
  rw [h]
  rfl

theorem dispatchPhase_action (reg : ToolRegistry) (summarize : String → Except String String)
    (st : LoopState) (h3 : ConversationHistory) (s : String) (pr : ParsedResponse)
    (act : ActionField) (hp : parseToolCall s = some pr) (ha : pr.action = some act) :
    ∃ st', dispatchPhase reg summarize st h3 s false = .ok ⟨.continued, st', actionCalls act⟩ := by
  unfold dispatchPhase
  rw [hp]
  simp only [Option.some_bind, ha]
  cases act with
  | single tc => exact ⟨_, rfl⟩
  | multiple tcs => exact ⟨_, rfl⟩

/-- C7: when the parsed response carries both an action and a final-answer
section, the iteration dispatches exactly the action's tool calls and does
not finish: its outcome is `continued`, so the final-answer text is not
returned and the loop proceeds to the next iteration. -/
theorem action_overrides_final_answer (reg : ToolRegistry)
    (summarize : String → Except String String) (s : String) (pr : ParsedResponse)
    (act : ActionField) (resp : String) (st : LoopState)
    (hp : parseToolCall s = some pr) (ha : pr.action = some act)
    (hr : pr.response = some resp) :
    ∃ st', runIteration reg summarize ⟨false, false, false⟩ [s] st
        = .ok ⟨.continued, st', actionCalls act⟩ := by
  exact dispatchPhase_action reg summarize st _ s pr act hp ha

theorem action_overrides_final_answer_witness :
    parseToolCall bothSectionsResponse
      = some ⟨none, some (.single echoCall), some ("Done.")⟩ ∧
    ∃ st', runIteration echoRegistry noSummarizer ⟨false, false, false⟩ [bothSectionsResponse]
        emptyLoopState = .ok ⟨.continued, st', [echoCall]⟩ := by
  refine ⟨rfl, ?_⟩
  exact action_overrides_final_answer echoRegistry noSummarizer bothSectionsResponse
    ⟨none, some (.single echoCall), some ("Done.")⟩ (.single echoCall) ("Done.") emptyLoopState
    rfl rfl rfl

theorem insertA_fresh {α : Type} (m : List (String × α)) (k : String) (v : α)
    (h : ∀ p ∈ m, p.1 ≠ k) : insertA m k v = m ++ [(k, v)] := by
  unfold insertA
  have hany : m.any (fun p => p.1 == k) = false := by
    rw [List.any_eq_false]
    intro p hp
    simp [beq_iff_eq]
    exact h p hp
  simp [hany]

theorem parallel_fold_closed (reg : ToolRegistry) :
    ∀ (tcs : List ToolCall) (rs es : List (String × String)),
      ((tcs.map (fun tc => jsToString tc.name)).Nodup) →
      (∀ tc ∈ tcs, ∀ p ∈ rs, p.1 ≠ jsToString tc.name) →
      (∀ tc ∈ tcs, ∀ p ∈ es, p.1 ≠ jsToString tc.name) →
      tcs.foldl (parStep reg) (rs, es)
        = (rs ++ toolResultsOf reg tcs, es ++ toolErrorsOf reg tcs) := by
  intro tcs
  induction tcs with
  | nil =>
    intro rs es _ _ _
    simp [toolResultsOf, toolErrorsOf]
  | cons tc rest ih =>
    intro rs es hnd hrs hes
    rw [List.map_cons, List.nodup_cons] at hnd
    obtain ⟨hnotin, hnd'⟩ := hnd
    have hhead : ∀ tc' ∈ rest, jsToString tc'.name ≠ jsToString tc.name := by
      intro tc' htc' heq
      exact hnotin (by rw [← heq]; exact List.mem_map_of_mem _ htc')
    rw [List.foldl_cons]
    cases hsucc : (executeTool reg tc).success with
    | true =>
      have hstep : parStep reg (rs, es) tc
          = (rs ++ [(jsToString tc.name, (executeTool reg tc).result)], es) := by
        simp [parStep, hsucc, insertA_fresh rs (jsToString tc.name)
          ((executeTool reg tc).result) (hrs tc (by simp))]
      rw [hstep, ih (rs ++ [(jsToString tc.name, (executeTool reg tc).result)]) es hnd'
        (by
          intro tc' htc' p hp
          rcases List.mem_append.mp hp with hin | hone
          · exact hrs tc' (List.mem_cons_of_mem _ htc') p hin
          · simp only [List.mem_singleton] at hone
            subst hone
            exact fun hq => hhead tc' htc' hq.symm)
        (fun tc' htc' p hp => hes tc' (List.mem_cons_of_mem _ htc') p hp)]
      simp [toolResultsOf, toolErrorsOf, List.filterMap_cons, hsucc, List.append_assoc]
    | false =>
      have hstep : parStep reg (rs, es) tc
          = (rs, es ++ [(jsToString tc.name, fallbackError (executeTool reg tc))]) := by
        simp [parStep, hsucc, insertA_fresh es (jsToString tc.name)
          (fallbackError (executeTool reg tc)) (hes tc (by simp))]
      rw [hstep, ih rs (es ++ [(jsToString tc.name, fallbackError (executeTool reg tc))]) hnd'
        (fun tc' htc' p hp => hrs tc' (List.mem_cons_of_mem _ htc') p hp)
        (by
          intro tc' htc' p hp
          rcases List.mem_append.mp hp with hin | hone
          · exact hes tc' (List.mem_cons_of_mem _ htc') p hin
          · simp only [List.mem_singleton] at hone
            subst hone
            exact fun hq => hhead tc' htc' hq.symm)]
      simp [toolResultsOf, toolErrorsOf, List.filterMap_cons, hsucc, List.append_assoc]

theorem resultsErrorsLength (reg : ToolRegistry) :
    ∀ tcs : List ToolCall,
      (toolResultsOf reg tcs).length + (toolErrorsOf reg tcs).length = tcs.length := by
  intro tcs
  induction tcs with
  | nil => rfl
  | cons tc rest ih =>
    cases hsucc : (executeTool reg tc).success <;>
      simp [toolResultsOf, toolErrorsOf, List.filterMap_cons, hsucc] at * <;> omega

/-- C8: parallel dispatch over distinctly named calls joins on all of them:
the aggregate equals the closed per-call forms, `success` holds exactly when
no call failed, every call contributes exactly one entry (results and errors
sizes sum to the call count), each succeeding call appears in `results` and
each failing call appears in `errors` — so one failure never suppresses a
sibling's entry. -/
theorem executeToolsParallel_joins_all (reg : ToolRegistry) (toolCalls : List ToolCall)
    (hnodup : (toolCalls.map (fun tc => jsToString tc.name)).Nodup) :
    executeToolsParallel reg toolCalls
      = ⟨(toolErrorsOf reg toolCalls).length == 0, toolResultsOf reg toolCalls,
          toolErrorsOf reg toolCalls⟩ ∧
    ((executeToolsParallel reg toolCalls).success = true
      ↔ ∀ tc ∈ toolCalls, (executeTool reg tc).success = true) ∧
    ((toolResultsOf reg toolCalls).length + (toolErrorsOf reg toolCalls).length
      = toolCalls.length) ∧
    (∀ tc ∈ toolCalls, (executeTool reg tc).success = true →
      (jsToString tc.name, (executeTool reg tc).result) ∈ toolResultsOf reg toolCalls) ∧
    (∀ tc ∈ toolCalls, (executeTool reg tc).success = false →
      (jsToString tc.name, fallbackError (executeTool reg tc)) ∈ toolErrorsOf reg toolCalls) := by
  have h0 : executeToolsParallel reg toolCalls
      = ⟨(toolErrorsOf reg toolCalls).length == 0, toolResultsOf reg toolCalls,
          toolErrorsOf reg toolCalls⟩ := by
    unfold executeToolsParallel
    rw [parallel_fold_closed reg toolCalls [] [] hnodup (by simp) (by simp)]
    simp
  refine ⟨h0, ?_, resultsErrorsLength reg toolCalls, ?_, ?_⟩
  · rw [h0]
    show ((toolErrorsOf reg toolCalls).length == 0) = true ↔ _
    rw [Nat.beq_eq_true_eq, List.length_eq_zero]
    unfold toolErrorsOf
    rw [List.filterMap_eq_nil_iff]
    constructor
    · intro h tc htc
      have := h tc htc
      cases hsucc : (executeTool reg tc).success with
      | true => rfl
      | false => simp [hsucc] at this
    · intro h tc htc
      simp [h tc htc]
  · intro tc htc hs
    exact List.mem_filterMap.mpr ⟨tc, htc, by simp [hs]⟩
  · intro tc htc hs
    exact List.mem_filterMap.mpr ⟨tc, htc, by simp [hs]⟩

theorem executeToolsParallel_joins_all_witness :
    (executeToolsParallel mixedRegistry
      [⟨.str ("alpha"), .obj []⟩, ⟨.str ("boom"), .obj []⟩, ⟨.str ("gamma"), .obj []⟩]).success
      = false ∧
    (executeToolsParallel mixedRegistry
      [⟨.str ("alpha"), .obj []⟩, ⟨.str ("boom"), .obj []⟩,
        ⟨.str ("gamma"), .obj []⟩]).results.length = 2 ∧
    (executeToolsParallel mixedRegistry
      [⟨.str ("alpha"), .obj []⟩, ⟨.str ("boom"), .obj []⟩, ⟨.str ("gamma"), .obj []⟩]).errors
      = [("boom", "boom failed")] := by
  have h := executeToolsParallel_joins_all mixedRegistry
    [⟨.str ("alpha"), .obj []⟩, ⟨.str ("boom"), .obj []⟩, ⟨.str ("gamma"), .obj []⟩] (by decide)
  refine ⟨?_, ?_, ?_⟩ <;> rw [h.1] <;> rfl

theorem isPrefixOf_append_self (l r : List Char) : l.isPrefixOf (l ++ r) = true := by
  induction l with
  | nil => simp [List.isPrefixOf]
  | cons c t ih => simp [List.isPrefixOf, ih]

theorem subOccurs_exact (n post : List Char) : subOccurs n (n ++ post) = true := by
  cases n with
  | nil => cases post <;> simp [subOccurs, List.isPrefixOf]
  | cons c t => simp [subOccurs, isPrefixOf_append_self]

theorem subOccurs_append_left (n h : List Char) (hs : subOccurs n h = true) :
    ∀ g : List Char, subOccurs n (g ++ h) = true := by
  intro g
  induction g with
  | nil => simpa
  | cons c t ih => simp [subOccurs, ih]

theorem strIncludes_of_append (pre mid post : String) :
    strIncludes (pre ++ (mid ++ post)) mid = true := by
  unfold strIncludes
  rw [String.data_append, String.data_append]
  exact subOccurs_append_left _ _ (subOccurs_exact _ _) _

theorem strIncludes_joinComma (names : List String) (s : String) (h : s ∈ names) :
    ∀ front : String, strIncludes (front ++ joinComma names) s = true := by
  induction names with
  | nil => cases h
  | cons a l ih =>
    intro front
    rcases List.mem_cons.mp h with rfl | hmem
    · cases l with
      | nil =>
        have : front ++ joinComma [s] = front ++ (s ++ "") := by
          simp [joinComma, String.append_empty]
        rw [this]
        exact strIncludes_of_append front s ""
      | cons b m =>
        have : front ++ joinComma (s :: b :: m) = front ++ (s ++ (", " ++ joinComma (b :: m))) := by
          simp [joinComma, String.append_assoc]
        rw [this]
        exact strIncludes_of_append front s (", " ++ joinComma (b :: m))
    · cases l with
      | nil => cases hmem
      | cons b m =>
        have : front ++ joinComma (a :: b :: m)
            = (front ++ a ++ ", ") ++ joinComma (b :: m) := by
          simp [joinComma, String.append_assoc]
        rw [this]
        exact ih hmem (front ++ a ++ ", ")

/-- C9: a call naming an unregistered capability yields a structured
failure — no exception, `success = false`, and an error message that names
every registered capability; a registered capability has its parameters
coerced through its own schema, its `execute` invoked, and the outcome
captured as a serialized success result or a failure message. -/
theorem executeTool_structured (reg : ToolRegistry) (toolCall : ToolCall) :
    (reg.getTool toolCall.name = none →
      executeTool reg toolCall = ⟨false, "", some (toolNotFoundError reg toolCall.name)⟩ ∧
      ∀ t ∈ reg.getAllTools, strIncludes (toolNotFoundError reg toolCall.name) t.name = true) ∧
    (∀ tool, reg.getTool toolCall.name = some tool →
      executeTool reg toolCall =
        match (do
            let tp ← convertParametersToTypes toolCall.parameters tool.parameters
            tool.execute (.obj tp)) with
        | .ok result => ⟨true, jsonStringify result, none⟩
        | .error e => ⟨false, "", some e⟩) := by
  constructor
  · intro hnone
    refine ⟨by simp [executeTool, hnone], ?_⟩
    intro t ht
    unfold toolNotFoundError
    exact strIncludes_joinComma ((reg.getAllTools).map (fun t => t.name)) t.name
      (List.mem_map_of_mem _ ht) _
  · intro tool htool
    simp [executeTool, htool]

theorem executeTool_structured_witness :
    executeTool mixedRegistry ⟨.str ("missing"), .obj []⟩
      = ⟨false, "", some (toolNotFoundError mixedRegistry (.str ("missing")))⟩ ∧
    strIncludes (toolNotFoundError mixedRegistry (.str ("missing"))) ("alpha") = true ∧
    strIncludes (toolNotFoundError mixedRegistry (.str ("missing"))) ("boom") = true ∧
    strIncludes (toolNotFoundError mixedRegistry (.str ("missing"))) ("gamma") = true ∧
    toolNotFoundError mixedRegistry (.str ("missing"))
      = "Tool \x27missing\x27 not found. Available tools: alpha, boom, gamma" ∧
    executeTool mixedRegistry ⟨.str ("alpha"), .obj []⟩ = ⟨true, "\"A\"", none⟩ := by
  have h := (executeTool_structured mixedRegistry ⟨.str ("missing"), .obj []⟩).1 rfl
  exact ⟨h.1, rfl, rfl, rfl, rfl, rfl⟩

/-- C10: the parallel aggregate is keyed by tool name, so two succeeding
calls naming the same tool collapse to a single `results` entry whose value
is the later completion's result, and the total number of recorded entries
(here 1) is strictly smaller than the number of dispatched calls (2). -/
theorem parallel_results_keyed_by_name (reg : ToolRegistry) (tc1 tc2 : ToolCall)
    (hname : jsToString tc1.name = jsToString tc2.name)
    (h1 : (executeTool reg tc1).success = true)
    (h2 : (executeTool reg tc2).success = true) :
    (executeToolsParallel reg [tc1, tc2]).results
        = [(jsToString tc1.name, (executeTool reg tc2).result)] ∧
    (executeToolsParallel reg [tc1, tc2]).errors = [] ∧
    (executeToolsParallel reg [tc1, tc2]).results.length
        + (executeToolsParallel reg [tc1, tc2]).errors.length = 1 := by
  have hstep1 : parStep reg ([], []) tc1
      = ([(jsToString tc1.name, (executeTool reg tc1).result)], []) := by
    simp [parStep, h1, insertA]
  have hstep2 : parStep reg ([(jsToString tc1.name, (executeTool reg tc1).result)], []) tc2
      = ([(jsToString tc1.name, (executeTool reg tc2).result)], []) := by
    simp [parStep, h2, insertA, hname]
  have hfold : [tc1, tc2].foldl (parStep reg) ([], [])
      = ([(jsToString tc1.name, (executeTool reg tc2).result)], []) := by
    rw [List.foldl_cons, hstep1, List.foldl_cons, hstep2, List.foldl_nil]
  refine ⟨?_, ?_, ?_⟩ <;> simp [executeToolsParallel, hfold]

theorem parallel_results_keyed_by_name_witness :
    (executeToolsParallel echoRegistry
        [⟨.str ("echo"), .obj [("x", .str ("1"))]⟩,
          ⟨.str ("echo"), .obj [("x", .str ("2"))]⟩]).results
      = [("echo", "\x7b\"x\":\"2\"\x7d")] ∧
    (executeToolsParallel echoRegistry
        [⟨.str ("echo"), .obj [("x", .str ("1"))]⟩,
          ⟨.str ("echo"), .obj [("x", .str ("2"))]⟩]).errors = [] ∧
    (executeToolsParallel echoRegistry
        [⟨.str ("echo"), .obj [("x", .str ("1"))]⟩,
          ⟨.str ("echo"), .obj [("x", .str ("2"))]⟩]).results.length
      + (executeToolsParallel echoRegistry
        [⟨.str ("echo"), .obj [("x", .str ("1"))]⟩,
          ⟨.str ("echo"), .obj [("x", .str ("2"))]⟩]).errors.length
      = 1 ∧ (1 : Nat) < 2 := by
  have h := parallel_results_keyed_by_name echoRegistry
    ⟨.str ("echo"), .obj [("x", .str ("1"))]⟩ ⟨.str ("echo"), .obj [("x", .str ("2"))]⟩
    rfl rfl rfl
  refine ⟨?_, h.2.1, h.2.2, by decide⟩
  rw [h.1]
  rfl
